import Mathlib

/-!
Verification of the flag-intersection tool (`src/intersect.py`, `src/cli.py`).

The data model follows the source: an RGBA pixel is four 8-bit channels, an
image is a width × height row-major flat list of pixels, and the engine
`intersect_flags` pastes each input onto a transparent union-sized canvas and
decides each coordinate by a squared-Euclidean-RGB-distance comparison.
-/

namespace FlagIntersect

/-- An RGBA pixel: four channels, each 0–255 in the source.  `PIL` hands the
engine plain integer 4-tuples, modelled as natural-number fields. -/
structure Pixel where
  r : Nat
  g : Nat
  b : Nat
  a : Nat
deriving DecidableEq, Repr

/-- `TRANSPARENT = (0, 0, 0, 0)` from `intersect.py`. -/
def TRANSPARENT : Pixel := ⟨0, 0, 0, 0⟩

/-- `WHITE = (255, 255, 255, 255)` from `intersect.py`. -/
def WHITE : Pixel := ⟨255, 255, 255, 255⟩

/-- `DEFAULT_TOLERANCE = 10` from `intersect.py`. -/
def DEFAULT_TOLERANCE : Int := 10

/-- A loaded raster: width, height, and the row-major flat pixel list that
`getdata()` yields, whose length is always `width * height` for a PIL image. -/
structure Image where
  width : Nat
  height : Nat
  data : List Pixel
  sizeOk : data.length = width * height

/-- Two images with the same dimensions and pixel data are equal. -/
theorem Image.eq_of_fields {i j : Image} (hw : i.width = j.width)
    (hh : i.height = j.height) (hd : i.data = j.data) : i = j := by
  cases i
  cases j
  simp_all

/-- `_rgb_distance_sq` from `intersect.py`: squared Euclidean distance between
the RGB components of two RGBA pixels; the alpha channel is not consulted.
Python subtraction of ints is modelled in `ℤ`. -/
def _rgb_distance_sq (pa pb : Pixel) : Int :=
  ((pa.r : Int) - (pb.r : Int)) ^ 2 + ((pa.g : Int) - (pb.g : Int)) ^ 2
    + ((pa.b : Int) - (pb.b : Int)) ^ 2

/-- Pasting an image at offset (0,0) onto a fully transparent w × h canvas
(`Image.new("RGBA", (w, h), (0, 0, 0, 0))` followed by `canvas.paste(img, (0, 0))`),
then reading the canvas back as a flat row-major list (`getdata()`): canvas
index `i` is coordinate `(i % w, i / w)`, which holds the input pixel when the
coordinate lies inside the input's native bounds and `TRANSPARENT` otherwise. -/
def pasteOnto (w h : Nat) (img : Image) : List Pixel :=
  (List.range (w * h)).map fun i =>
    if i % w < img.width ∧ i / w < img.height then
      img.data.getD (i / w * img.width + i % w) TRANSPARENT
    else
      TRANSPARENT

/-- `fill = WHITE if white_bg else TRANSPARENT` from `intersect_flags`. -/
def fillPixel (white_bg : Bool) : Pixel :=
  if white_bg then WHITE else TRANSPARENT

/-- The per-coordinate decision in the loop of `intersect_flags`: a zero alpha
on either placed pixel gives the fill, otherwise the squared distance is
compared against the squared tolerance and flag A's pixel is kept on a match. -/
def mergePixel (fill : Pixel) (threshold_sq : Int) (pa pb : Pixel) : Pixel :=
  if pa.a = 0 ∨ pb.a = 0 then fill
  else if _rgb_distance_sq pa pb ≤ threshold_sq then pa
  else fill

/-- The `result_pixels` list built by `intersect_flags`: zip the two pasted
canvases and merge pointwise. -/
def intersectData (img_a img_b : Image) (white_bg : Bool) (tolerance : Int) :
    List Pixel :=
  ((pasteOnto (max img_a.width img_b.width) (max img_a.height img_b.height) img_a).zip
      (pasteOnto (max img_a.width img_b.width) (max img_a.height img_b.height) img_b)).map
    fun pp =>
      mergePixel (fillPixel white_bg) (tolerance * tolerance) pp.1 pp.2

theorem pasteOnto_length (w h : Nat) (img : Image) :
    (pasteOnto w h img).length = w * h := by
  simp [pasteOnto]

theorem intersectData_length (img_a img_b : Image) (white_bg : Bool)
    (tolerance : Int) :
    (intersectData img_a img_b white_bg tolerance).length =
      max img_a.width img_b.width * max img_a.height img_b.height := by
  simp [intersectData, pasteOnto]

/-- `intersect_flags` from `intersect.py`: union canvas `(max widths, max heights)`,
fill = `WHITE` when `white_bg` else `TRANSPARENT`, squared-threshold comparison,
result assembled from the merged pixel list. -/
def intersect_flags (img_a img_b : Image) (white_bg : Bool) (tolerance : Int) :
    Image where
  width := max img_a.width img_b.width
  height := max img_a.height img_b.height
  data := intersectData img_a img_b white_bg tolerance
  sizeOk := intersectData_length img_a img_b white_bg tolerance

/-- The error the engine reports when called with fewer than two images
(spec §7 names it `TooFewImages`; the Python side raises `ValueError`). -/
inductive IntersectError where
  | tooFewImages
deriving DecidableEq, Repr

/-- Union canvas width over a list of inputs, folded as `max(widths)`. -/
def unionWidth (imgs : List Image) : Nat :=
  imgs.foldl (fun acc img => max acc img.width) 0

/-- Union canvas height over a list of inputs, folded as `max(heights)`. -/
def unionHeight (imgs : List Image) : Nat :=
  imgs.foldl (fun acc img => max acc img.height) 0

/-- Modelled from the spec: the per-coordinate decision of `intersect_many`,
whose definition is absent from `src/intersect.py` although `cli.py` and
`test_intersect.py` import it.  Spec §4.2: (1) if any placed pixel has alpha 0
the coordinate is a global non-match regardless of tolerance; (2) otherwise the
coordinate matches iff every other image's placed pixel is within tolerance of
the FIRST image's placed pixel (squared distance vs squared tolerance);
(3) emit the first image's pixel on a match, the fill otherwise. -/
def manyData (img1 : Image) (rest : List Image) (w h : Nat) (fill : Pixel)
    (threshold_sq : Int) : List Pixel :=
  (List.range (w * h)).map fun i =>
    if ((pasteOnto w h img1).getD i TRANSPARENT).a = 0
        ∨ ∃ img ∈ rest, ((pasteOnto w h img).getD i TRANSPARENT).a = 0 then
      fill
    else if ∀ img ∈ rest,
        _rgb_distance_sq ((pasteOnto w h img1).getD i TRANSPARENT)
            ((pasteOnto w h img).getD i TRANSPARENT) ≤ threshold_sq then
      (pasteOnto w h img1).getD i TRANSPARENT
    else fill

theorem manyData_length (img1 : Image) (rest : List Image) (w h : Nat)
    (fill : Pixel) (threshold_sq : Int) :
    (manyData img1 rest w h fill threshold_sq).length = w * h := by
  simp [manyData]

/-- Modelled from the spec: `intersect_many`, imported by `cli.py` and the test
suite but missing from `src/intersect.py`.  Spec §4.1–§4.3 and §7: reject fewer
than two inputs before computing anything, otherwise place every input on the
union canvas `(max widths, max heights)` and decide each coordinate by
comparing every image against the first, emitting the first image's pixel on a
match and the configured fill otherwise. -/
def intersect_many (imgs : List Image) (white_bg : Bool) (tolerance : Int) :
    Except IntersectError Image :=
  if imgs.length < 2 then
    .error .tooFewImages
  else
    match imgs with
    | [] => .error .tooFewImages
    | img1 :: rest =>
      .ok
        { width := unionWidth (img1 :: rest)
          height := unionHeight (img1 :: rest)
          data := manyData img1 rest (unionWidth (img1 :: rest))
            (unionHeight (img1 :: rest))
            (fillPixel white_bg) (tolerance * tolerance)
          sizeOk := manyData_length img1 rest _ _ _ _ }

/-- The "kept" statistic from `cli.py`: the number of output pixels whose alpha
channel is strictly positive. -/
def keptCount (img : Image) : Nat :=
  img.data.countP fun p => decide (0 < p.a)

/-! ### Indexing lemmas -/

theorem pasteOnto_getD (w h : Nat) (img : Image) (i : Nat) (hi : i < w * h) :
    (pasteOnto w h img).getD i TRANSPARENT =
      if i % w < img.width ∧ i / w < img.height then
        img.data.getD (i / w * img.width + i % w) TRANSPARENT
      else TRANSPARENT := by
  have hlen : i < (pasteOnto w h img).length := by
    simpa [pasteOnto_length] using hi
  rw [List.getD_eq_getElem?_getD, List.getElem?_eq_getElem hlen]
  simp [pasteOnto]

/-- A map over a zip of two length-`n` lists, read as a map over `range n`. -/
theorem zip_map_eq_range_map {α β γ : Type} (f : α → β → γ) (la : List α)
    (lb : List β) (da : α) (db : β) (n : Nat) (hla : la.length = n)
    (hlb : lb.length = n) :
    (la.zip lb).map (fun pp => f pp.1 pp.2) =
      (List.range n).map fun i => f (la.getD i da) (lb.getD i db) := by
  apply List.ext_getElem
  · simp [hla, hlb]
  · intro i h1 h2
    have hia : i < la.length := by simp_all [List.length_zip]
    have hib : i < lb.length := by simp_all [List.length_zip]
    simp only [List.getElem_map, List.getElem_zip, List.getElem_range]
    rw [List.getD_eq_getElem?_getD, List.getElem?_eq_getElem hia,
      List.getD_eq_getElem?_getD, List.getElem?_eq_getElem hib]
    rfl

theorem intersectData_eq_range_map (img_a img_b : Image) (white_bg : Bool)
    (tolerance : Int) :
    intersectData img_a img_b white_bg tolerance =
      (List.range (max img_a.width img_b.width * max img_a.height img_b.height)).map
        fun i =>
          mergePixel (fillPixel white_bg)
            (tolerance * tolerance)
            ((pasteOnto (max img_a.width img_b.width)
                (max img_a.height img_b.height) img_a).getD i TRANSPARENT)
            ((pasteOnto (max img_a.width img_b.width)
                (max img_a.height img_b.height) img_b).getD i TRANSPARENT) := by
  exact zip_map_eq_range_map _ _ _ TRANSPARENT TRANSPARENT _
    (pasteOnto_length _ _ _) (pasteOnto_length _ _ _)

/-- Reading one pixel of the engine's output as a merge of the two placed
canvas pixels at the same flat coordinate. -/
theorem intersect_flags_getD (img_a img_b : Image) (white_bg : Bool)
    (tolerance : Int) (i : Nat)
    (hi : i < max img_a.width img_b.width * max img_a.height img_b.height) :
    (intersect_flags img_a img_b white_bg tolerance).data.getD i TRANSPARENT =
      mergePixel (fillPixel white_bg)
        (tolerance * tolerance)
        ((pasteOnto (max img_a.width img_b.width)
            (max img_a.height img_b.height) img_a).getD i TRANSPARENT)
        ((pasteOnto (max img_a.width img_b.width)
            (max img_a.height img_b.height) img_b).getD i TRANSPARENT) := by
  show (intersectData img_a img_b white_bg tolerance).getD i TRANSPARENT = _
  rw [intersectData_eq_range_map]
  have hlen : i < ((List.range (max img_a.width img_b.width *
      max img_a.height img_b.height)).map fun i =>
        mergePixel (fillPixel white_bg)
          (tolerance * tolerance)
          ((pasteOnto (max img_a.width img_b.width)
              (max img_a.height img_b.height) img_a).getD i TRANSPARENT)
          ((pasteOnto (max img_a.width img_b.width)
              (max img_a.height img_b.height) img_b).getD i TRANSPARENT)).length := by
    simpa using hi
  rw [List.getD_eq_getElem?_getD, List.getElem?_eq_getElem hlen]
  simp

/-- The pixel that input `img` contributes at flat coordinate `i` of the union
canvas of `img_a` and `img_b` (its placed canvas pixel). -/
def placedPixel (img_a img_b img : Image) (i : Nat) : Pixel :=
  (pasteOnto (max img_a.width img_b.width) (max img_a.height img_b.height)
    img).getD i TRANSPARENT

/-- The output pixel of `intersect_flags` at flat coordinate `i`. -/
def outPixel (img_a img_b : Image) (white_bg : Bool) (tolerance : Int)
    (i : Nat) : Pixel :=
  (intersect_flags img_a img_b white_bg tolerance).data.getD i TRANSPARENT

theorem outPixel_eq_merge (img_a img_b : Image) (white_bg : Bool)
    (tolerance : Int) (i : Nat)
    (hi : i < max img_a.width img_b.width * max img_a.height img_b.height) :
    outPixel img_a img_b white_bg tolerance i =
      mergePixel (fillPixel white_bg) (tolerance * tolerance)
        (placedPixel img_a img_b img_a i) (placedPixel img_a img_b img_b i) :=
  intersect_flags_getD img_a img_b white_bg tolerance i hi

/-! ### Distance lemmas -/

theorem rgb_distance_sq_nonneg (pa pb : Pixel) : 0 ≤ _rgb_distance_sq pa pb := by
  unfold _rgb_distance_sq
  positivity

theorem rgb_distance_sq_self (p : Pixel) : _rgb_distance_sq p p = 0 := by
  simp [_rgb_distance_sq]

/-- The comparison `_rgb_distance_sq pa pb <= tolerance ** 2` performed by the
code decides exactly "Euclidean RGB distance at most tolerance". -/
theorem sqrt_dist_le_iff (pa pb : Pixel) (t : Int) (ht : 0 ≤ t) :
    Real.sqrt ((_rgb_distance_sq pa pb : Int) : ℝ) ≤ (t : ℝ) ↔
      _rgb_distance_sq pa pb ≤ t * t := by
  rw [Real.sqrt_le_left (by exact_mod_cast ht), sq]
  constructor
  · intro h
    exact_mod_cast h
  · intro h
    exact_mod_cast h

theorem rgb_distance_sq_le_zero_iff (pa pb : Pixel) :
    _rgb_distance_sq pa pb ≤ 0 ↔
      pa.r = pb.r ∧ pa.g = pb.g ∧ pa.b = pb.b := by
  constructor
  · intro h
    unfold _rgb_distance_sq at h
    have hr : ((pa.r : Int) - (pb.r : Int)) ^ 2 = 0 := by
      nlinarith [sq_nonneg ((pa.r : Int) - (pb.r : Int)),
        sq_nonneg ((pa.g : Int) - (pb.g : Int)),
        sq_nonneg ((pa.b : Int) - (pb.b : Int))]
    have hg : ((pa.g : Int) - (pb.g : Int)) ^ 2 = 0 := by
      nlinarith [sq_nonneg ((pa.r : Int) - (pb.r : Int)),
        sq_nonneg ((pa.g : Int) - (pb.g : Int)),
        sq_nonneg ((pa.b : Int) - (pb.b : Int))]
    have hb : ((pa.b : Int) - (pb.b : Int)) ^ 2 = 0 := by
      nlinarith [sq_nonneg ((pa.r : Int) - (pb.r : Int)),
        sq_nonneg ((pa.g : Int) - (pb.g : Int)),
        sq_nonneg ((pa.b : Int) - (pb.b : Int))]
    refine ⟨?_, ?_, ?_⟩
    · have := sub_eq_zero.mp ((pow_eq_zero_iff two_ne_zero).mp hr)
      exact_mod_cast this
    · have := sub_eq_zero.mp ((pow_eq_zero_iff two_ne_zero).mp hg)
      exact_mod_cast this
    · have := sub_eq_zero.mp ((pow_eq_zero_iff two_ne_zero).mp hb)
      exact_mod_cast this
  · rintro ⟨h1, h2, h3⟩
    simp [_rgb_distance_sq, h1, h2, h3]

/-! ### mergePixel case lemmas -/

theorem mergePixel_of_alpha_zero (fill : Pixel) (tsq : Int) (pa pb : Pixel)
    (h : pa.a = 0 ∨ pb.a = 0) : mergePixel fill tsq pa pb = fill := by
  simp [mergePixel, h]

theorem mergePixel_of_close (fill : Pixel) (tsq : Int) (pa pb : Pixel)
    (ha : pa.a ≠ 0) (hb : pb.a ≠ 0) (hd : _rgb_distance_sq pa pb ≤ tsq) :
    mergePixel fill tsq pa pb = pa := by
  rw [mergePixel, if_neg (by simp [ha, hb]), if_pos hd]

theorem mergePixel_of_far (fill : Pixel) (tsq : Int) (pa pb : Pixel)
    (hd : ¬ _rgb_distance_sq pa pb ≤ tsq) :
    mergePixel fill tsq pa pb = fill := by
  rw [mergePixel]
  by_cases h0 : pa.a = 0 ∨ pb.a = 0
  · rw [if_pos h0]
  · rw [if_neg h0, if_neg hd]

/-! ### Folded-maximum lemmas for the union canvas size -/

theorem foldl_max_acc_le (f : Image → Nat) :
    ∀ (l : List Image) (acc : Nat),
      acc ≤ l.foldl (fun a img => max a (f img)) acc := by
  intro l
  induction l with
  | nil => intro acc; exact le_refl acc
  | cons x xs ih =>
    intro acc
    exact le_trans (le_max_left acc (f x)) (ih (max acc (f x)))

theorem foldl_max_mem_le (f : Image → Nat) :
    ∀ (l : List Image) (acc : Nat), ∀ img ∈ l,
      f img ≤ l.foldl (fun a i => max a (f i)) acc := by
  intro l
  induction l with
  | nil => intro acc img hm; cases hm
  | cons x xs ih =>
    intro acc img hm
    rcases List.mem_cons.mp hm with h | h
    · subst h
      exact le_trans (le_max_right acc (f img)) (foldl_max_acc_le f xs _)
    · exact ih (max acc (f x)) img h

theorem foldl_max_attained (f : Image → Nat) :
    ∀ (l : List Image) (acc : Nat),
      l.foldl (fun a i => max a (f i)) acc = acc ∨
        ∃ img ∈ l, l.foldl (fun a i => max a (f i)) acc = f img := by
  intro l
  induction l with
  | nil => intro acc; exact Or.inl rfl
  | cons x xs ih =>
    intro acc
    rcases ih (max acc (f x)) with h | h
    · rcases max_choice acc (f x) with hm | hm
      · left
        rw [List.foldl_cons, h, hm]
      · right
        exact ⟨x, List.mem_cons_self x xs, by rw [List.foldl_cons, h, hm]⟩
    · right
      obtain ⟨img, hmem, heq⟩ := h
      exact ⟨img, List.mem_cons_of_mem x hmem, by rw [List.foldl_cons]; exact heq⟩

theorem unionWidth_mem (img1 : Image) (rest : List Image) :
    ∃ img ∈ img1 :: rest, unionWidth (img1 :: rest) = img.width := by
  rcases foldl_max_attained Image.width (img1 :: rest) 0 with h | h
  · refine ⟨img1, List.mem_cons_self img1 rest, ?_⟩
    have h1 := foldl_max_mem_le Image.width (img1 :: rest) 0 img1
      (List.mem_cons_self img1 rest)
    unfold unionWidth
    omega
  · exact h

theorem unionHeight_mem (img1 : Image) (rest : List Image) :
    ∃ img ∈ img1 :: rest, unionHeight (img1 :: rest) = img.height := by
  rcases foldl_max_attained Image.height (img1 :: rest) 0 with h | h
  · refine ⟨img1, List.mem_cons_self img1 rest, ?_⟩
    have h1 := foldl_max_mem_le Image.height (img1 :: rest) 0 img1
      (List.mem_cons_self img1 rest)
    unfold unionHeight
    omega
  · exact h

/-! ### Concrete images used as evaluation inputs -/

/-- A 1 × 1 image holding one opaque dark-red pixel. -/
def imgA1 : Image := ⟨1, 1, [⟨10, 0, 0, 255⟩], rfl⟩

/-- A 1 × 1 opaque image at squared RGB distance 25 from `imgA1`. -/
def imgB1 : Image := ⟨1, 1, [⟨13, 4, 0, 255⟩], rfl⟩

/-- A 2 × 1 opaque red image. -/
def imgWide : Image := ⟨2, 1, [⟨255, 0, 0, 255⟩, ⟨255, 0, 0, 255⟩], rfl⟩

/-- A 1 × 1 opaque red image, narrower than `imgWide`. -/
def imgNarrow : Image := ⟨1, 1, [⟨255, 0, 0, 255⟩], rfl⟩

/-- A 1 × 3 opaque red image. -/
def imgTall : Image :=
  ⟨1, 3, [⟨255, 0, 0, 255⟩, ⟨255, 0, 0, 255⟩, ⟨255, 0, 0, 255⟩], rfl⟩

/-- A 1 × 1 image whose pixel has zero alpha but nonzero RGB channels. -/
def ghostImage : Image := ⟨1, 1, [⟨7, 3, 9, 0⟩], rfl⟩

/-- A 1 × 1 fully opaque pixel with RGB (5, 6, 7). -/
def imgOpaque : Image := ⟨1, 1, [⟨5, 6, 7, 255⟩], rfl⟩

/-- A 1 × 1 pixel with the same RGB as `imgOpaque` but alpha 128. -/
def imgHalfAlpha : Image := ⟨1, 1, [⟨5, 6, 7, 128⟩], rfl⟩

/-! ### Claim theorems -/

/-- Claim C8: calling the intersection entry point with fewer than two images
fails with the too-few-images error before any intersection is computed, and
no output raster is produced (the result carries no image). -/
theorem C8_too_few_images (imgs : List Image) (white_bg : Bool) (t : Int)
    (h : imgs.length < 2) :
    intersect_many imgs white_bg t =
      Except.error IntersectError.tooFewImages := by
  unfold intersect_many
  rw [if_pos h]

/-- Witness for C8 at a concrete one-image call. -/
theorem C8_too_few_images_witness :
    intersect_many [imgA1] false 10 =
      Except.error IntersectError.tooFewImages :=
  C8_too_few_images [imgA1] false 10 (by decide)

/-- Claim C9: every output pixel of `intersect_flags` is either exactly the
configured fill pixel or exactly the first image's placed canvas pixel at that
coordinate; the second image's colours never appear and nothing is blended. -/
theorem C9_output_first_or_fill (img_a img_b : Image) (white_bg : Bool)
    (t : Int) (i : Nat)
    (hi : i < max img_a.width img_b.width * max img_a.height img_b.height) :
    outPixel img_a img_b white_bg t i = fillPixel white_bg ∨
      outPixel img_a img_b white_bg t i = placedPixel img_a img_b img_a i := by
  rw [outPixel_eq_merge img_a img_b white_bg t i hi]
  unfold mergePixel
  split
  · exact Or.inl rfl
  · split
    · exact Or.inr rfl
    · exact Or.inl rfl

/-- Witness for C9 at two concrete 1 × 1 images with the white fill policy. -/
theorem C9_output_first_or_fill_witness :
    outPixel imgA1 imgB1 true 10 0 = fillPixel true ∨
      outPixel imgA1 imgB1 true 10 0 = placedPixel imgA1 imgB1 imgA1 0 :=
  C9_output_first_or_fill imgA1 imgB1 true 10 0 (by decide)

/-- Claim C10: because the threshold is squared before the comparison, a
negative tolerance behaves exactly like its absolute value — the outputs at
tolerance `t` and `-t` are pixel-for-pixel identical. -/
theorem C10_neg_tolerance (img_a img_b : Image) (white_bg : Bool) (t : Int) :
    intersect_flags img_a img_b white_bg t =
      intersect_flags img_a img_b white_bg (-t) := by
  refine Image.eq_of_fields rfl rfl ?_
  show intersectData img_a img_b white_bg t =
    intersectData img_a img_b white_bg (-t)
  unfold intersectData
  rw [neg_mul_neg]

/-- Claim C2: a zero-alpha placed pixel on either side forces the fill pixel
at that coordinate unconditionally, whatever the tolerance; in particular,
intersecting an image with a narrower image of the same height yields the fill
at every coordinate whose x lies at or beyond the narrower width. -/
theorem C2_out_of_bounds (img_a img_b : Image) (white_bg : Bool) (t : Int) :
    (∀ i, i < max img_a.width img_b.width * max img_a.height img_b.height →
      (placedPixel img_a img_b img_a i).a = 0 ∨
        (placedPixel img_a img_b img_b i).a = 0 →
      outPixel img_a img_b white_bg t i = fillPixel white_bg)
    ∧ (img_b.width < img_a.width → img_b.height = img_a.height →
      ∀ x y, img_b.width ≤ x → x < img_a.width → y < img_a.height →
        outPixel img_a img_b white_bg t (y * img_a.width + x) =
          fillPixel white_bg) := by
  have part1 : ∀ i,
      i < max img_a.width img_b.width * max img_a.height img_b.height →
      (placedPixel img_a img_b img_a i).a = 0 ∨
        (placedPixel img_a img_b img_b i).a = 0 →
      outPixel img_a img_b white_bg t i = fillPixel white_bg := by
    intro i hi h0
    rw [outPixel_eq_merge img_a img_b white_bg t i hi]
    exact mergePixel_of_alpha_zero _ _ _ _ h0
  refine ⟨part1, ?_⟩
  intro hwb hh x y hbx hxa hya
  have hw : max img_a.width img_b.width = img_a.width :=
    Nat.max_eq_left (le_of_lt hwb)
  have hh2 : max img_a.height img_b.height = img_a.height :=
    Nat.max_eq_left hh.le
  have hwpos : 0 < img_a.width := lt_of_le_of_lt (Nat.zero_le x) hxa
  have hidx : y * img_a.width + x <
      max img_a.width img_b.width * max img_a.height img_b.height := by
    rw [hw, hh2]
    calc y * img_a.width + x < y * img_a.width + img_a.width := by omega
      _ = (y + 1) * img_a.width := by ring
      _ ≤ img_a.height * img_a.width := Nat.mul_le_mul_right _ (by omega)
      _ = img_a.width * img_a.height := Nat.mul_comm _ _
  apply part1 _ hidx
  right
  have hmod : (y * img_a.width + x) % max img_a.width img_b.width = x := by
    rw [hw, Nat.mul_comm y img_a.width, Nat.mul_add_mod, Nat.mod_eq_of_lt hxa]
  have hdiv : (y * img_a.width + x) / max img_a.width img_b.width = y := by
    rw [hw, Nat.mul_comm y img_a.width, Nat.mul_add_div hwpos,
      Nat.div_eq_of_lt hxa, Nat.add_zero]
  unfold placedPixel
  rw [pasteOnto_getD _ _ _ _ hidx, hmod, hdiv,
    if_neg fun hc => absurd hc.1 (Nat.not_lt.mpr hbx)]
  rfl

/-- Witness for C2: a 2 × 1 red image against a 1 × 1 red image gives the
transparent fill in the right column even at tolerance 99, both via the
zero-alpha rule and via the x ≥ narrower-width formulation. -/
theorem C2_out_of_bounds_witness :
    outPixel imgWide imgNarrow false 99 1 = fillPixel false ∧
      outPixel imgWide imgNarrow false 99 (0 * imgWide.width + 1) =
        fillPixel false :=
  ⟨(C2_out_of_bounds imgWide imgNarrow false 99).1 1 (by decide)
      (Or.inr (by decide)),
    (C2_out_of_bounds imgWide imgNarrow false 99).2 (by decide) (by decide)
      1 0 (by decide) (by decide) (by decide)⟩

/-- Claim C7: at tolerance 0 the match decision degenerates to exact equality
of the R, G and B channels while ignoring alpha: where both placed pixels have
nonzero alpha, equal RGB emits the first image's pixel whatever the two alpha
values are, and any difference in R, G or B forces the fill pixel. -/
theorem C7_tol0_exact_rgb (img_a img_b : Image) (white_bg : Bool) (i : Nat)
    (hi : i < max img_a.width img_b.width * max img_a.height img_b.height)
    (ha : (placedPixel img_a img_b img_a i).a ≠ 0)
    (hb : (placedPixel img_a img_b img_b i).a ≠ 0) :
    ((placedPixel img_a img_b img_a i).r = (placedPixel img_a img_b img_b i).r ∧
        (placedPixel img_a img_b img_a i).g =
          (placedPixel img_a img_b img_b i).g ∧
        (placedPixel img_a img_b img_a i).b =
          (placedPixel img_a img_b img_b i).b →
      outPixel img_a img_b white_bg 0 i = placedPixel img_a img_b img_a i)
    ∧ (¬ ((placedPixel img_a img_b img_a i).r =
            (placedPixel img_a img_b img_b i).r ∧
          (placedPixel img_a img_b img_a i).g =
            (placedPixel img_a img_b img_b i).g ∧
          (placedPixel img_a img_b img_a i).b =
            (placedPixel img_a img_b img_b i).b) →
      outPixel img_a img_b white_bg 0 i = fillPixel white_bg) := by
  constructor
  · intro hrgb
    rw [outPixel_eq_merge img_a img_b white_bg 0 i hi]
    apply mergePixel_of_close _ _ _ _ ha hb
    have hle := (rgb_distance_sq_le_zero_iff _ _).mpr hrgb
    simpa using hle
  · intro hrgb
    rw [outPixel_eq_merge img_a img_b white_bg 0 i hi]
    apply mergePixel_of_far
    intro hd
    exact hrgb ((rgb_distance_sq_le_zero_iff _ _).mp (by simpa using hd))

/-- Witness for C7 at two concrete 1 × 1 images with equal RGB (5, 6, 7) but
alphas 255 and 128. -/
theorem C7_tol0_exact_rgb_witness :
    ((placedPixel imgOpaque imgHalfAlpha imgOpaque 0).r =
        (placedPixel imgOpaque imgHalfAlpha imgHalfAlpha 0).r ∧
      (placedPixel imgOpaque imgHalfAlpha imgOpaque 0).g =
        (placedPixel imgOpaque imgHalfAlpha imgHalfAlpha 0).g ∧
      (placedPixel imgOpaque imgHalfAlpha imgOpaque 0).b =
        (placedPixel imgOpaque imgHalfAlpha imgHalfAlpha 0).b →
      outPixel imgOpaque imgHalfAlpha false 0 0 =
        placedPixel imgOpaque imgHalfAlpha imgOpaque 0)
    ∧ (¬ ((placedPixel imgOpaque imgHalfAlpha imgOpaque 0).r =
            (placedPixel imgOpaque imgHalfAlpha imgHalfAlpha 0).r ∧
          (placedPixel imgOpaque imgHalfAlpha imgOpaque 0).g =
            (placedPixel imgOpaque imgHalfAlpha imgHalfAlpha 0).g ∧
          (placedPixel imgOpaque imgHalfAlpha imgOpaque 0).b =
            (placedPixel imgOpaque imgHalfAlpha imgHalfAlpha 0).b) →
      outPixel imgOpaque imgHalfAlpha false 0 0 = fillPixel false) :=
  C7_tol0_exact_rgb imgOpaque imgHalfAlpha false 0 (by decide) (by decide)
    (by decide)

/-- Claim C1: at every union-canvas coordinate where both placed pixels have
nonzero alpha, and for every non-negative integer tolerance, the code's
squared-distance vs squared-tolerance comparison decides exactly the predicate
"Euclidean distance over the R, G and B channels is at most the tolerance"
(alpha excluded), and `intersect_flags` emits the first image's full RGBA
pixel when that predicate holds and the configured fill pixel otherwise. -/
theorem C1_match_rule (img_a img_b : Image) (white_bg : Bool) (t : Int)
    (ht : 0 ≤ t) (i : Nat)
    (hi : i < max img_a.width img_b.width * max img_a.height img_b.height)
    (ha : (placedPixel img_a img_b img_a i).a ≠ 0)
    (hb : (placedPixel img_a img_b img_b i).a ≠ 0) :
    (Real.sqrt ((_rgb_distance_sq (placedPixel img_a img_b img_a i)
          (placedPixel img_a img_b img_b i) : Int) : ℝ) ≤ (t : ℝ) ↔
        _rgb_distance_sq (placedPixel img_a img_b img_a i)
          (placedPixel img_a img_b img_b i) ≤ t * t)
    ∧ (Real.sqrt ((_rgb_distance_sq (placedPixel img_a img_b img_a i)
          (placedPixel img_a img_b img_b i) : Int) : ℝ) ≤ (t : ℝ) →
        outPixel img_a img_b white_bg t i = placedPixel img_a img_b img_a i)
    ∧ (¬ Real.sqrt ((_rgb_distance_sq (placedPixel img_a img_b img_a i)
          (placedPixel img_a img_b img_b i) : Int) : ℝ) ≤ (t : ℝ) →
        outPixel img_a img_b white_bg t i = fillPixel white_bg) := by
  have hiff := sqrt_dist_le_iff (placedPixel img_a img_b img_a i)
    (placedPixel img_a img_b img_b i) t ht
  refine ⟨hiff, ?_, ?_⟩
  · intro h
    rw [outPixel_eq_merge img_a img_b white_bg t i hi]
    exact mergePixel_of_close _ _ _ _ ha hb (hiff.mp h)
  · intro h
    rw [outPixel_eq_merge img_a img_b white_bg t i hi]
    exact mergePixel_of_far _ _ _ _ fun hc => h (hiff.mpr hc)

/-- Witness for C1 at two concrete 1 × 1 opaque images whose squared RGB
distance is 25, with tolerance 6. -/
theorem C1_match_rule_witness :
    (Real.sqrt ((_rgb_distance_sq (placedPixel imgA1 imgB1 imgA1 0)
          (placedPixel imgA1 imgB1 imgB1 0) : Int) : ℝ) ≤ ((6 : Int) : ℝ) ↔
        _rgb_distance_sq (placedPixel imgA1 imgB1 imgA1 0)
          (placedPixel imgA1 imgB1 imgB1 0) ≤ 6 * 6)
    ∧ (Real.sqrt ((_rgb_distance_sq (placedPixel imgA1 imgB1 imgA1 0)
          (placedPixel imgA1 imgB1 imgB1 0) : Int) : ℝ) ≤ ((6 : Int) : ℝ) →
        outPixel imgA1 imgB1 false 6 0 = placedPixel imgA1 imgB1 imgA1 0)
    ∧ (¬ Real.sqrt ((_rgb_distance_sq (placedPixel imgA1 imgB1 imgA1 0)
          (placedPixel imgA1 imgB1 imgB1 0) : Int) : ℝ) ≤ ((6 : Int) : ℝ) →
        outPixel imgA1 imgB1 false 6 0 = fillPixel false) :=
  C1_match_rule imgA1 imgB1 false 6 (by decide) 0 (by decide) (by decide)
    (by decide)

/-- The per-coordinate decision can only gain kept (alpha > 0) pixels when the
squared threshold grows. -/
theorem mergePixel_kept_mono (fill : Pixel) (s1 s2 : Int) (hs : s1 ≤ s2)
    (pa pb : Pixel) (h : 0 < (mergePixel fill s1 pa pb).a) :
    0 < (mergePixel fill s2 pa pb).a := by
  by_cases h0 : pa.a = 0 ∨ pb.a = 0
  · rw [mergePixel_of_alpha_zero fill s1 pa pb h0] at h
    rw [mergePixel_of_alpha_zero fill s2 pa pb h0]
    exact h
  · push_neg at h0
    by_cases hd : _rgb_distance_sq pa pb ≤ s1
    · rw [mergePixel_of_close fill s1 pa pb h0.1 h0.2 hd] at h
      rw [mergePixel_of_close fill s2 pa pb h0.1 h0.2 (le_trans hd hs)]
      exact h
    · by_cases hd2 : _rgb_distance_sq pa pb ≤ s2
      · rw [mergePixel_of_close fill s2 pa pb h0.1 h0.2 hd2]
        exact Nat.pos_of_ne_zero h0.1
      · rw [mergePixel_of_far fill s1 pa pb hd] at h
        rw [mergePixel_of_far fill s2 pa pb hd2]
        exact h

/-- Claim C5: for fixed inputs and fill policy, the count of output pixels
with alpha > 0 is non-decreasing in the (non-negative) tolerance. -/
theorem C5_tolerance_mono (img_a img_b : Image) (white_bg : Bool)
    (t1 t2 : Int) (h0 : 0 ≤ t1) (h12 : t1 ≤ t2) :
    keptCount (intersect_flags img_a img_b white_bg t1) ≤
      keptCount (intersect_flags img_a img_b white_bg t2) := by
  have hsq : t1 * t1 ≤ t2 * t2 := mul_le_mul h12 h12 h0 (le_trans h0 h12)
  show (intersectData img_a img_b white_bg t1).countP _ ≤
    (intersectData img_a img_b white_bg t2).countP _
  rw [intersectData_eq_range_map img_a img_b white_bg t1,
    intersectData_eq_range_map img_a img_b white_bg t2,
    List.countP_map, List.countP_map]
  apply List.countP_mono_left
  intro i hmem h
  simp only [Function.comp_apply, decide_eq_true_eq] at h ⊢
  exact mergePixel_kept_mono (fillPixel white_bg) (t1 * t1) (t2 * t2) hsq _ _ h

/-- Witness for C5 at concrete inputs and tolerances 0 ≤ 5. -/
theorem C5_tolerance_mono_witness :
    keptCount (intersect_flags imgA1 imgB1 false 0) ≤
      keptCount (intersect_flags imgA1 imgB1 false 5) :=
  C5_tolerance_mono imgA1 imgB1 false 0 5 (by decide) (by decide)

/-- Counterexample to claim C6 as stated: self-intersection at tolerance 0 of
a 1 × 1 image whose pixel has alpha 0 but nonzero RGB channels does NOT
reproduce the input pixel — the engine emits the transparent fill instead. -/
theorem C6_counterexample :
    ¬ ((intersect_flags ghostImage ghostImage false 0).data.getD 0 TRANSPARENT =
        ghostImage.data.getD 0 TRANSPARENT) := by
  decide

/-- Claim C6 amended: self-intersection at tolerance 0 reproduces the image at
every originally-opaque coordinate — whenever the input pixel at flat index
`i` has nonzero alpha, the output pixel equals that input pixel exactly (full
RGBA, alpha included), for either fill policy. -/
theorem C6_self_identity (img : Image) (white_bg : Bool) (i : Nat)
    (hi : i < img.data.length)
    (ha : (img.data.getD i TRANSPARENT).a ≠ 0) :
    (intersect_flags img img white_bg 0).data.getD i TRANSPARENT =
      img.data.getD i TRANSPARENT := by
  have hsz : img.data.length = img.width * img.height := img.sizeOk
  have hi2 : i < img.width * img.height := by omega
  have hi3 : i < max img.width img.width * max img.height img.height := by
    rw [Nat.max_self, Nat.max_self]
    exact hi2
  have hwpos : 0 < img.width := by
    rcases Nat.eq_zero_or_pos img.width with h | h
    · rw [h] at hi2
      omega
    · exact h
  have hx : i % img.width < img.width := Nat.mod_lt i hwpos
  have hy : i / img.width < img.height := Nat.div_lt_of_lt_mul hi2
  have hpaste : (pasteOnto (max img.width img.width)
      (max img.height img.height) img).getD i TRANSPARENT =
      img.data.getD i TRANSPARENT := by
    rw [Nat.max_self, Nat.max_self, pasteOnto_getD img.width img.height img i hi2,
      if_pos ⟨hx, hy⟩]
    have heq : i / img.width * img.width + i % img.width = i := by
      rw [Nat.mul_comm]
      exact Nat.div_add_mod i img.width
    rw [heq]
  rw [intersect_flags_getD img img white_bg 0 i hi3]
  show mergePixel (fillPixel white_bg) (0 * 0) _ _ = _
  rw [hpaste]
  apply mergePixel_of_close _ _ _ _ ha ha
  rw [rgb_distance_sq_self]
  norm_num

/-- Witness for the amended C6 at a concrete opaque 1 × 1 image. -/
theorem C6_self_identity_witness :
    (intersect_flags imgOpaque imgOpaque false 0).data.getD 0 TRANSPARENT =
      imgOpaque.data.getD 0 TRANSPARENT :=
  C6_self_identity imgOpaque false 0 (by decide) (by decide)

/-- Claim C3: with at least two inputs the engine succeeds, and the output
raster's width and height are the maxima of the input widths and heights — an
upper bound for every input, attained by some input in each dimension. -/
theorem C3_union_dims (imgs : List Image) (white_bg : Bool) (t : Int)
    (h2 : 2 ≤ imgs.length) :
    ∃ out, intersect_many imgs white_bg t = Except.ok out ∧
      (∀ img ∈ imgs, img.width ≤ out.width ∧ img.height ≤ out.height) ∧
      (∃ img ∈ imgs, out.width = img.width) ∧
      (∃ img ∈ imgs, out.height = img.height) := by
  cases imgs with
  | nil => simp at h2
  | cons img1 rest =>
    have hne : ¬ (img1 :: rest).length < 2 := Nat.not_lt.mpr h2
    refine ⟨⟨unionWidth (img1 :: rest), unionHeight (img1 :: rest),
      manyData img1 rest (unionWidth (img1 :: rest))
        (unionHeight (img1 :: rest)) (fillPixel white_bg) (t * t),
      manyData_length img1 rest (unionWidth (img1 :: rest))
        (unionHeight (img1 :: rest)) (fillPixel white_bg) (t * t)⟩,
      ?_, ?_, ?_, ?_⟩
    · unfold intersect_many
      rw [if_neg hne]
    · intro img hm
      exact ⟨foldl_max_mem_le Image.width (img1 :: rest) 0 img hm,
        foldl_max_mem_le Image.height (img1 :: rest) 0 img hm⟩
    · exact unionWidth_mem img1 rest
    · exact unionHeight_mem img1 rest

/-- Witness for C3 at a concrete 2 × 1 and 1 × 3 input pair: the output is
produced and is 2 × 3. -/
theorem C3_union_dims_witness :
    ∃ out, intersect_many [imgWide, imgTall] false 10 = Except.ok out ∧
      (∀ img ∈ [imgWide, imgTall],
        img.width ≤ out.width ∧ img.height ≤ out.height) ∧
      (∃ img ∈ [imgWide, imgTall], out.width = img.width) ∧
      (∃ img ∈ [imgWide, imgTall], out.height = img.height) :=
  C3_union_dims [imgWide, imgTall] false 10 (by decide)

/-- Claim C4: the two-flag entry point agrees with the N-way algorithm on two
inputs — `intersect_many [a, b]` succeeds with exactly the raster that
`intersect_flags a b` produces, for every fill policy and every tolerance. -/
theorem C4_two_flag_refines_many (img_a img_b : Image) (white_bg : Bool)
    (t : Int) :
    intersect_many [img_a, img_b] white_bg t =
      Except.ok (intersect_flags img_a img_b white_bg t) := by
  have hw : unionWidth [img_a, img_b] = max img_a.width img_b.width := by
    simp [unionWidth, List.foldl]
  have hh : unionHeight [img_a, img_b] = max img_a.height img_b.height := by
    simp [unionHeight, List.foldl]
  unfold intersect_many
  rw [if_neg (by simp)]
  show Except.ok _ = Except.ok _
  congr 1
  apply Image.eq_of_fields hw hh
  show manyData img_a [img_b] (unionWidth [img_a, img_b])
      (unionHeight [img_a, img_b]) (fillPixel white_bg) (t * t) =
    intersectData img_a img_b white_bg t
  rw [hw, hh, intersectData_eq_range_map img_a img_b white_bg t]
  unfold manyData
  apply List.map_congr_left
  intro i hmem
  simp [mergePixel]

end FlagIntersect
